import Mathlib

/-!
Verification development for the smithay-clipboard-segfault repository.

Part A embeds the concrete harness in src/src/main.rs: the App struct and
its three ApplicationHandler callbacks (resumed, about_to_wait,
window_event), together with main, which runs the event loop from the
all-None initial App.  Time is modelled as Nat milliseconds, Instant.now
as the current value of that clock, and Instant.elapsed as truncated
subtraction; the one-second auto-close threshold is 1000 ms.  Console
output is external I O and is not part of the state.

Part B models the resource-lifetime core (ResourceLifetimeRegistry,
DependentResource, Window, ApplicationController) that the design
document specifies; that core has no code under src/, so it is modelled
from the spec, and every definition in Part B carries a doc comment
saying so.
-/

namespace Harness

/-- Variants of winit RawDisplayHandle relevant to the match in resumed:
the code only distinguishes the Wayland variant from everything else, so
the remaining platform variants are collapsed into representatives. -/
inductive RawDisplayHandle
  | Wayland
  | Xlib
  | Xcb
  | Windows
  | AppKit
  | otherPlatform
deriving DecidableEq, Repr

/-- The egui_winit clipboard value: an external resource constructed from
the raw display handle that was passed to Clipboard.new.  Its internals
(the smithay background thread) are outside the harness code. -/
structure Clipboard where
  rawDisplay : Option RawDisplayHandle
deriving DecidableEq, Repr

/-- The App struct of main.rs: window, clipboard, start_time, each
initially None.  The Arc Window is abstracted to its identifier and
Instant to a Nat clock value. -/
structure App where
  window : Option Nat
  clipboard : Option Clipboard
  start_time : Option Nat
deriving DecidableEq, Repr

/-- Effects a callback may request from the ActiveEventLoop: exit and
set_control_flow(Poll).  Printing to the console is not modelled. -/
structure LoopCmds where
  exitRequested : Bool
  pollRequested : Bool
deriving DecidableEq, Repr

def LoopCmds.none : LoopCmds := ⟨false, false⟩

/-- Environment inputs consumed by resumed: the identifier of the window
create_window returns, the raw display handle reported for it (None when
display_handle errs), and the current clock value read by Instant.now. -/
structure ResumedCtx where
  newWindowId : Nat
  rawDisplay : Option RawDisplayHandle
  now : Nat
deriving DecidableEq, Repr

/-- The test performed by the if-let in resumed: Some(Wayland(_)). -/
def isWaylandHandle : Option RawDisplayHandle → Bool
  | some .Wayland => true
  | _ => false

/-- App.resumed from main.rs: guarded by self.window.is_none(); creates
the window, builds the clipboard only when the raw display handle is the
Wayland variant, then stores the window and start_time and requests
ControlFlow.Poll.  When the guard fails nothing happens. -/
def App.resumed (self : App) (ctx : ResumedCtx) : App × LoopCmds :=
  if self.window.isNone then
    let self1 :=
      if isWaylandHandle ctx.rawDisplay then
        { self with clipboard := some ⟨ctx.rawDisplay⟩ }
      else
        self
    ({ self1 with window := some ctx.newWindowId, start_time := some ctx.now },
     { exitRequested := false, pollRequested := true })
  else
    (self, LoopCmds.none)

/-- App.about_to_wait from main.rs: when start_time is set and at least
one second (1000 ms) has elapsed, request event-loop exit. -/
def App.about_to_wait (self : App) (now : Nat) : App × LoopCmds :=
  match self.start_time with
  | some start =>
      if 1000 ≤ now - start then (self, ⟨true, false⟩) else (self, LoopCmds.none)
  | none => (self, LoopCmds.none)

/-- Variants of winit WindowEvent relevant to the match in window_event:
the code only distinguishes CloseRequested, so the remaining variants are
collapsed into representatives. -/
inductive WindowEvent
  | CloseRequested
  | Resized
  | Moved
  | Focused
  | RedrawRequested
  | Destroyed
  | otherEvent
deriving DecidableEq, Repr

/-- App.window_event from main.rs: requests event-loop exit on
CloseRequested and does nothing otherwise. -/
def App.window_event (self : App) (event : WindowEvent) : App × LoopCmds :=
  match event with
  | .CloseRequested => (self, ⟨true, false⟩)
  | _ => (self, LoopCmds.none)

/-- One delivery of the event loop to the ApplicationHandler. -/
inductive LoopEvent
  | resumedEv (newWindowId : Nat) (now : Nat)
  | aboutToWaitEv (now : Nat)
  | windowEv (e : WindowEvent)
deriving DecidableEq, Repr

/-- Dispatch one event-loop delivery to the matching App callback,
keeping the resulting state.  The raw display handle is fixed for the
whole run, as it is determined by the platform the process runs on. -/
def App.handle (self : App) (rawDisplay : Option RawDisplayHandle) :
    LoopEvent → App
  | .resumedEv wid now => (self.resumed ⟨wid, rawDisplay, now⟩).1
  | .aboutToWaitEv now => (self.about_to_wait now).1
  | .windowEv e => (self.window_event e).1

/-- The initial App built in main: all three fields None. -/
def App.initial : App := ⟨none, none, none⟩

/-- event_loop.run_app from main: fold the delivered events over the
initial App. -/
def runApp (rawDisplay : Option RawDisplayHandle) (events : List LoopEvent) :
    App :=
  events.foldl (fun a ev => a.handle rawDisplay ev) App.initial

end Harness

namespace Harness

/-- On a platform whose display handle is not Wayland, no callback ever
writes the clipboard field, so a None clipboard stays None. -/
theorem handle_clipboard_none (rd : Option RawDisplayHandle)
    (h : isWaylandHandle rd = false) (a : App) (ev : LoopEvent)
    (ha : a.clipboard = none) : (a.handle rd ev).clipboard = none := by
  cases ev with
  | resumedEv wid now =>
      by_cases hw : a.window.isNone <;>
        simp [App.handle, App.resumed, hw, h, LoopCmds.none, ha]
  | aboutToWaitEv now =>
      cases hs : a.start_time with
      | none => simp [App.handle, App.about_to_wait, hs, LoopCmds.none, ha]
      | some s =>
          simp only [App.handle, App.about_to_wait, hs]
          split <;> simp [ha]
  | windowEv e =>
      cases e <;> simp [App.handle, App.window_event, LoopCmds.none, ha]

/-- C7: the event loop is told to exit exactly when a CloseRequested
window event arrives or when at least one second (1000 ms) has elapsed
since the window was created; resumed itself never requests exit. -/
theorem exit_iff_close_or_timer (app : App) (now : Nat) (e : WindowEvent)
    (ctx : ResumedCtx) :
    ((app.about_to_wait now).2.exitRequested = true ↔
        ∃ s, app.start_time = some s ∧ 1000 ≤ now - s) ∧
    ((app.window_event e).2.exitRequested = true ↔ e = .CloseRequested) ∧
    (app.resumed ctx).2.exitRequested = false := by
  refine ⟨?_, ?_, ?_⟩
  · cases hs : app.start_time with
    | none => simp [App.about_to_wait, hs, LoopCmds.none]
    | some s =>
        simp only [App.about_to_wait, hs]
        by_cases hle : 1000 ≤ now - s <;> simp [hle, LoopCmds.none]
  · cases e <;> simp [App.window_event, LoopCmds.none]
  · by_cases hw : app.window.isNone <;> simp [App.resumed, hw, LoopCmds.none]

/-- C8: on every run whose platform display handle is not the Wayland
variant, the clipboard field of the App stays None for the whole
execution of the event loop. -/
theorem clipboard_none_off_wayland (rd : Option RawDisplayHandle)
    (events : List LoopEvent) (h : isWaylandHandle rd = false) :
    (runApp rd events).clipboard = none := by
  have key : ∀ (l : List LoopEvent) (a : App), a.clipboard = none →
      (l.foldl (fun a ev => a.handle rd ev) a).clipboard = none := by
    intro l
    induction l with
    | nil => intro a ha; simpa using ha
    | cons ev tl ih =>
        intro a ha
        exact ih _ (handle_clipboard_none rd h a ev ha)
  exact key events App.initial rfl

/-- C8 witness: a concrete non-Wayland run, with a resumed delivery, a
close-request and the timer firing, ends with no clipboard. -/
theorem clipboard_none_off_wayland_witness :
    isWaylandHandle (some .Xlib) = false ∧
    (runApp (some .Xlib)
        [.resumedEv 7 0, .windowEv .CloseRequested, .aboutToWaitEv 2000]
      ).clipboard = none :=
  ⟨rfl, clipboard_none_off_wayland (some .Xlib)
    [.resumedEv 7 0, .windowEv .CloseRequested, .aboutToWaitEv 2000] rfl⟩

/-- C9: once the window field is Some, resumed is a no-op on the App
(the whole body sits under the self.window.is_none() guard), and it
requests nothing from the event loop. -/
theorem resumed_idempotent_after_first (app : App) (ctx : ResumedCtx)
    (w : Nat) (h : app.window = some w) :
    app.resumed ctx = (app, LoopCmds.none) := by
  simp [App.resumed, h]

/-- C9 witness: resumed on a concrete App that already holds a window
leaves it untouched. -/
theorem resumed_idempotent_after_first_witness :
    App.resumed ⟨some 3, none, some 11⟩ ⟨9, some .Wayland, 42⟩ =
      (⟨some 3, none, some 11⟩, LoopCmds.none) :=
  resumed_idempotent_after_first ⟨some 3, none, some 11⟩
    ⟨9, some .Wayland, 42⟩ 3 rfl

/-- C10: window_event returns the App unchanged for every event; its
only requested effect is event-loop exit, and it requests it exactly
when the event is CloseRequested. -/
theorem window_event_frame (self : App) (e : WindowEvent) :
    (self.window_event e).1 = self ∧
    (self.window_event e).2.pollRequested = false ∧
    ((self.window_event e).2.exitRequested = true ↔ e = .CloseRequested) := by
  cases e <;> simp [App.window_event, LoopCmds.none]

end Harness

namespace Core

/-- Modelled from the spec: the error taxonomy of section 7; the registry
and resource code it classifies is absent from src/. -/
inductive RegError
  | DuplicateRoot
  | UnknownRoot
  | RootAlreadyInvalid
  | RootHasDependents
  | AlreadyUnregistered
  | WorkerShutdownTimeout
deriving DecidableEq, Repr

/-- Modelled from the spec: the per-root record of the
ResourceLifetimeRegistry of section 4.1 (absent from src/): the validity
flag of the DisplayHandle and the set of dependents currently registered
against the root, kept as a list of tokens. -/
structure RootEntry where
  valid : Bool
  dependents : List Nat
deriving DecidableEq, Repr

/-- Pointwise update of a map represented as a function into Option. -/
def updateFn {α : Type} (f : Nat → Option α) (k : Nat) (v : Option α) :
    Nat → Option α :=
  fun x => if x = k then v else f x

/-- Modelled from the spec: the ResourceLifetimeRegistry of section 4.1
(absent from src/): a mapping from root identifier to its entry, the
mapping from issued dependent tokens to the root they were registered
against, and the counter from which fresh tokens are drawn. -/
structure Registry where
  roots : Nat → Option RootEntry
  tokens : Nat → Option Nat
  nextToken : Nat

/-- The empty registry the system starts from. -/
def Registry.empty : Registry := ⟨fun _ => none, fun _ => none, 0⟩

/-- The dependent set currently registered against a root; empty for a
root the registry does not know. -/
def Registry.depSet (reg : Registry) (r : Nat) : List Nat :=
  match reg.roots r with
  | some e => e.dependents
  | none => []

/-- The validity flag of a root; false for a root the registry does not
know. -/
def Registry.rootValid (reg : Registry) (r : Nat) : Bool :=
  match reg.roots r with
  | some e => e.valid
  | none => false

/-- Modelled from the spec: register_root of section 4.1 (absent from
src/): creates a root entry with an empty dependent set, failing with
DuplicateRoot when the identifier already exists. -/
def register_root (reg : Registry) (r : Nat) : Except RegError Registry :=
  match reg.roots r with
  | some _ => .error .DuplicateRoot
  | none =>
      .ok { reg with roots := updateFn reg.roots r (some ⟨true, []⟩) }

/-- Modelled from the spec: register_dependent of section 4.1 (absent
from src/): fails with UnknownRoot when the root was already invalidated
or never registered; otherwise adds a fresh token to the dependent set of
the root and returns it. -/
def register_dependent (reg : Registry) (r : Nat) :
    Except RegError (Nat × Registry) :=
  match reg.roots r with
  | none => .error .UnknownRoot
  | some e =>
      if e.valid then
        let t := reg.nextToken
        .ok (t, { roots := updateFn reg.roots r (some ⟨true, t :: e.dependents⟩),
                  tokens := updateFn reg.tokens t (some r),
                  nextToken := t + 1 })
      else .error .UnknownRoot

/-- Modelled from the spec: unregister_dependent of section 4.1 (absent
from src/): removes the dependent named by the token from the set of its
root; presenting a token that is no longer live fails with
AlreadyUnregistered and changes nothing. -/
def unregister_dependent (reg : Registry) (t : Nat) :
    Except RegError Registry :=
  match reg.tokens t with
  | none => .error .AlreadyUnregistered
  | some r =>
      let newRoots :=
        match reg.roots r with
        | some e =>
            updateFn reg.roots r
              (some ⟨e.valid, e.dependents.filter (fun x => x != t)⟩)
        | none => reg.roots
      .ok { roots := newRoots,
            tokens := updateFn reg.tokens t none,
            nextToken := reg.nextToken }

/-- Modelled from the spec: invalidate_root of section 4.1 (absent from
src/): fails with RootHasDependents when the dependent set is non-empty;
otherwise marks the root invalid, which removes it from the live
registry (register_dependent rejects it from then on).  On failure the
caller keeps the unchanged registry. -/
def invalidate_root (reg : Registry) (r : Nat) : Except RegError Registry :=
  match reg.roots r with
  | none => .error .UnknownRoot
  | some e =>
      if e.valid then
        if e.dependents.isEmpty then
          .ok { reg with roots := updateFn reg.roots r (some ⟨false, []⟩) }
        else .error .RootHasDependents
      else .error .UnknownRoot

/-- Running or stopped state of a DependentResource worker. -/
inductive DepState
  | running
  | stopped
deriving DecidableEq, Repr

/-- Modelled from the spec: the DependentResource of section 4.2 (absent
from src/): the identifier of the root it borrows, the registry token it
must present to unregister, and the state of its worker thread, the
thread itself being abstracted into that state flag. -/
structure DependentResource where
  rootId : Nat
  token : Nat
  state : DepState
deriving DecidableEq, Repr

/-- Modelled from the spec: start of section 4.2 (absent from src/):
registers against the root and returns a running resource, failing with
RootAlreadyInvalid instead of constructing a resource against a dead
root. -/
def DependentResource.start (reg : Registry) (r : Nat) :
    Except RegError (DependentResource × Registry) :=
  match register_dependent reg r with
  | .error _ => .error .RootAlreadyInvalid
  | .ok (t, reg2) => .ok ({ rootId := r, token := t, state := .running }, reg2)

/-- Unregister a token, keeping the registry unchanged when the call
fails; the shared tail of stop and destroy, which never fail. -/
def unregisterOrKeep (reg : Registry) (t : Nat) : Registry :=
  match unregister_dependent reg t with
  | .ok reg2 => reg2
  | .error _ => reg

/-- Modelled from the spec: stop of section 4.2 (absent from src/):
signals the worker, joins it (abstracted into the state flag becoming
stopped), then unregisters the token; stop never fails. -/
def DependentResource.stop (reg : Registry) (d : DependentResource) :
    DependentResource × Registry :=
  ({ d with state := .stopped }, unregisterOrKeep reg d.token)

/-- Modelled from the spec: the Window of section 4.3 (absent from
src/): borrows a root and holds a registry token, with no background
thread. -/
structure WindowRes where
  rootId : Nat
  token : Nat
deriving DecidableEq, Repr

/-- Modelled from the spec: destroy of section 4.3 (absent from src/):
unregisters the window as a dependent of its root. -/
def WindowRes.destroy (reg : Registry) (w : WindowRes) : Registry :=
  unregisterOrKeep reg w.token

/-- A register_dependent or unregister_dependent call on the registry,
as an event of a call sequence. -/
inductive RegOp
  | regDep (r : Nat)
  | unregDep (t : Nat)
deriving DecidableEq, Repr

/-- Apply one registry call, keeping the old registry when the call
fails (a failed call changes nothing). -/
def applyOp (reg : Registry) (op : RegOp) : Registry :=
  match op with
  | .regDep r =>
      match register_dependent reg r with
      | .ok (_, reg2) => reg2
      | .error _ => reg
  | .unregDep t =>
      match unregister_dependent reg t with
      | .ok reg2 => reg2
      | .error _ => reg

/-- Apply a sequence of register_dependent and unregister_dependent
calls in order. -/
def applyOps (reg : Registry) (ops : List RegOp) : Registry :=
  ops.foldl applyOp reg

/-- Modelled from the spec: the states of the ApplicationController
state machine of section 4.4 (absent from src/). -/
inductive CtrlState
  | Uninitialized
  | Running
  | ShuttingDown
  | Terminated
deriving DecidableEq, Repr

/-- Modelled from the spec: the ApplicationController of section 4.4
(absent from src/): it holds the registry, the identifier of the root it
registered, and the dependent resources and windows created against that
root. -/
structure Controller where
  ctrlState : CtrlState
  rootId : Nat
  deps : List DependentResource
  windows : List WindowRes
  registry : Registry

/-- One observable teardown action, recorded in the order the controller
performs it. -/
inductive Action
  | stopDep (t : Nat)
  | destroyWin (t : Nat)
  | invalidateRoot (r : Nat)
deriving DecidableEq, Repr

/-- Modelled from the spec: the Running to ShuttingDown to Terminated
path of section 4.4 (absent from src/): entering ShuttingDown calls stop
on every DependentResource and destroy on every Window, each completing
fully, and only then invokes invalidate_root on the root; the controller
reaches Terminated when the invalidation succeeds.  The returned action
list records the order of the calls. -/
def Controller.shutdown (c : Controller) : Controller × List Action :=
  match c.ctrlState with
  | .Running =>
      let reg1 := c.deps.foldl (fun reg d => (DependentResource.stop reg d).2) c.registry
      let stoppedDeps := c.deps.map (fun d => { d with state := DepState.stopped })
      let reg2 := c.windows.foldl (fun reg w => w.destroy reg) reg1
      let acts := c.deps.map (fun d => Action.stopDep d.token)
                    ++ c.windows.map (fun w => Action.destroyWin w.token)
                    ++ [Action.invalidateRoot c.rootId]
      match invalidate_root reg2 c.rootId with
      | .ok reg3 =>
          ({ c with ctrlState := .Terminated, registry := reg3,
                    deps := stoppedDeps }, acts)
      | .error _ =>
          ({ c with ctrlState := .ShuttingDown, registry := reg2,
                    deps := stoppedDeps }, acts)
  | _ => (c, [])

/-- The whole core as a transition system: the registry together with
every DependentResource ever started. -/
structure System where
  registry : Registry
  resources : List DependentResource

/-- One operation of the core, as the spec exposes it: register a root,
start a dependent resource, stop one of the started resources, or
invalidate a root.  These are the only paths that mutate the registry,
so the registry guarantees its invariants by construction rather than
caller discipline. -/
inductive SysStep : System → System → Prop
  | registerRoot (s : System) (r : Nat) (reg2 : Registry)
      (h : register_root s.registry r = .ok reg2) :
      SysStep s ⟨reg2, s.resources⟩
  | startRes (s : System) (r : Nat) (d : DependentResource) (reg2 : Registry)
      (h : DependentResource.start s.registry r = .ok (d, reg2)) :
      SysStep s ⟨reg2, d :: s.resources⟩
  | stopRes (s : System) (pre post : List DependentResource)
      (d : DependentResource) (h : s.resources = pre ++ d :: post) :
      SysStep s ⟨(DependentResource.stop s.registry d).2,
                 pre ++ (DependentResource.stop s.registry d).1 :: post⟩
  | invalidateRoot (s : System) (r : Nat) (reg2 : Registry)
      (h : invalidate_root s.registry r = .ok reg2) :
      SysStep s ⟨reg2, s.resources⟩

/-- States of the core reachable from the empty system by its
operations. -/
inductive Reachable : System → Prop
  | init : Reachable ⟨Registry.empty, []⟩
  | step (s s2 : System) : Reachable s → SysStep s s2 → Reachable s2

theorem updateFn_same {α : Type} (f : Nat → Option α) (k : Nat)
    (v : Option α) : updateFn f k v k = v := by
  simp [updateFn]

theorem updateFn_other {α : Type} (f : Nat → Option α) (k x : Nat)
    (v : Option α) (h : x ≠ k) : updateFn f k v x = f x := by
  simp [updateFn, h]

/-- Filtering out a member of a duplicate-free list shortens it by
exactly one. -/
theorem length_filter_ne_of_nodup (l : List Nat) (t : Nat) (hn : l.Nodup)
    (hm : t ∈ l) : (l.filter (fun x => x != t)).length + 1 = l.length := by
  induction l with
  | nil => cases hm
  | cons a tl ih =>
      rcases List.nodup_cons.mp hn with ⟨hna, hntl⟩
      by_cases hat : a = t
      · subst hat
        have hfil : tl.filter (fun x => x != a) = tl :=
          List.filter_eq_self.mpr (fun x hx => by
            simp only [bne_iff_ne, ne_eq]
            intro hxa; exact hna (hxa ▸ hx))
        simp [hfil]
      · have hm2 : t ∈ tl := by
          cases List.mem_cons.mp hm with
          | inl h => exact absurd h.symm hat
          | inr h => exact h
        have := ih hntl hm2
        simp only [List.filter_cons, bne_iff_ne, ne_eq, hat,
          not_false_iff, if_true, List.length_cons]
        omega

end Core

namespace Core

/-- C1: after any sequence of register_dependent and
unregister_dependent calls, invalidate_root on a still-valid root
succeeds exactly when the dependent set of the root is empty at the
moment of the call; when the set is non-empty it fails with
RootHasDependents, and on success the root is marked invalid and
removed from the live registry. -/
theorem invalidate_root_iff_no_dependents (reg0 : Registry)
    (ops : List RegOp) (r : Nat)
    (h : (applyOps reg0 ops).rootValid r = true) :
    ((∃ reg2, invalidate_root (applyOps reg0 ops) r = .ok reg2) ↔
        (applyOps reg0 ops).depSet r = []) ∧
    ((applyOps reg0 ops).depSet r ≠ [] →
        invalidate_root (applyOps reg0 ops) r = .error .RootHasDependents) ∧
    (∀ reg2, invalidate_root (applyOps reg0 ops) r = .ok reg2 →
        reg2.rootValid r = false ∧ reg2.depSet r = [] ∧
        register_dependent reg2 r = .error .UnknownRoot) := by
  set reg := applyOps reg0 ops with hreg
  cases hr : reg.roots r with
  | none => simp [Registry.rootValid, hr] at h
  | some e =>
      have hv : e.valid = true := by
        simpa [Registry.rootValid, hr] using h
      by_cases hd : e.dependents = []
      · have hok : invalidate_root reg r =
            .ok { reg with roots := updateFn reg.roots r (some ⟨false, []⟩) } := by
          simp [invalidate_root, hr, hv, hd]
        refine ⟨?_, ?_, ?_⟩
        · simp [hok, Registry.depSet, hr, hd]
        · intro hcon; exact absurd (by simp [Registry.depSet, hr, hd]) hcon
        · intro reg2 h2
          rw [hok] at h2
          cases h2
          refine ⟨?_, ?_, ?_⟩
          · simp [Registry.rootValid, updateFn_same]
          · simp [Registry.depSet, updateFn_same]
          · simp [register_dependent, updateFn_same]
      · have herr : invalidate_root reg r = .error .RootHasDependents := by
          simp [invalidate_root, hr, hv, List.isEmpty_iff, hd]
        refine ⟨?_, fun _ => herr, ?_⟩
        · constructor
          · rintro ⟨reg2, h2⟩
            rw [herr] at h2
            cases h2
          · intro h2
            exact absurd (by simpa [Registry.depSet, hr] using h2) hd
        · intro reg2 h2
          rw [herr] at h2
          cases h2

/-- C1 witness registry: the empty registry with root 0 registered. -/
def regW1 : Registry :=
  match register_root Registry.empty 0 with
  | .ok reg => reg
  | .error _ => Registry.empty

/-- C1 witness: on the concrete registry holding only the fresh root 0
and the empty call sequence, invalidation succeeds exactly because the
dependent set is empty. -/
theorem invalidate_root_iff_no_dependents_witness :
    ((∃ reg2, invalidate_root (applyOps regW1 []) 0 = .ok reg2) ↔
        (applyOps regW1 []).depSet 0 = []) ∧
    ((applyOps regW1 []).depSet 0 ≠ [] →
        invalidate_root (applyOps regW1 []) 0 = .error .RootHasDependents) ∧
    (∀ reg2, invalidate_root (applyOps regW1 []) 0 = .ok reg2 →
        reg2.rootValid 0 = false ∧ reg2.depSet 0 = [] ∧
        register_dependent reg2 0 = .error .UnknownRoot) :=
  invalidate_root_iff_no_dependents regW1 [] 0 rfl

/-- C2: when start succeeded against a root and stop has not been
called, invalidating that root fails with RootHasDependents (the error
case returns no new registry, so nothing is changed), the dependent is
still running and the root is still valid. -/
theorem invalidate_fails_while_running (reg reg2 : Registry) (r : Nat)
    (d : DependentResource)
    (h : DependentResource.start reg r = .ok (d, reg2)) :
    invalidate_root reg2 r = .error .RootHasDependents ∧
    d.state = .running ∧ reg2.rootValid r = true := by
  cases hr : reg.roots r with
  | none => simp [DependentResource.start, register_dependent, hr] at h
  | some e =>
      by_cases hv : e.valid
      · simp [DependentResource.start, register_dependent, hr, hv] at h
        obtain ⟨rfl, rfl⟩ := h
        refine ⟨?_, rfl, ?_⟩
        · simp [invalidate_root, updateFn_same]
        · simp [Registry.rootValid, updateFn_same]
      · simp [DependentResource.start, register_dependent, hr, hv] at h

/-- C2 and C4 witness resource: the result of starting a dependent on
root 0 of the witness registry. -/
def startW : DependentResource × Registry :=
  match DependentResource.start regW1 0 with
  | .ok p => p
  | .error _ => (⟨0, 0, .stopped⟩, regW1)

/-- The witness dependent resource. -/
def dW : DependentResource := startW.1

/-- The witness registry after the start. -/
def regW2 : Registry := startW.2

/-- C2 witness: on the concrete registry where a dependent was started
on root 0, direct invalidation fails with RootHasDependents while the
dependent runs and the root stays valid. -/
theorem invalidate_fails_while_running_witness :
    invalidate_root regW2 0 = .error .RootHasDependents ∧
    dW.state = .running ∧ regW2.rootValid 0 = true :=
  invalidate_fails_while_running regW1 regW2 0 dW rfl

/-- C4: start returns a resource only when the root is valid at the
call: a successful start yields a running resource registered against
that (valid) root, and on an unknown or invalidated root start fails
with RootAlreadyInvalid rather than constructing a resource. -/
theorem start_requires_valid_root (reg : Registry) (r : Nat) :
    (∀ d reg2, DependentResource.start reg r = .ok (d, reg2) →
        reg.rootValid r = true ∧ d.rootId = r ∧ d.state = .running ∧
        d.token ∈ reg2.depSet r) ∧
    (reg.rootValid r = false →
        DependentResource.start reg r = .error .RootAlreadyInvalid) := by
  cases hr : reg.roots r with
  | none =>
      constructor
      · intro d reg2 h
        simp [DependentResource.start, register_dependent, hr] at h
      · intro _
        simp [DependentResource.start, register_dependent, hr]
  | some e =>
      by_cases hv : e.valid
      · constructor
        · intro d reg2 h
          simp [DependentResource.start, register_dependent, hr, hv] at h
          obtain ⟨rfl, rfl⟩ := h
          refine ⟨by simp [Registry.rootValid, hr, hv], rfl, rfl, ?_⟩
          simp [Registry.depSet, updateFn_same]
        · intro hva
          simp [Registry.rootValid, hr, hv] at hva
      · constructor
        · intro d reg2 h
          simp [DependentResource.start, register_dependent, hr, hv] at h
        · intro _
          simp [DependentResource.start, register_dependent, hr, hv]

/-- C4 witness: on the concrete registry with valid root 0 a start
succeeds and is registered, and on the empty registry (root 0 unknown)
start fails with RootAlreadyInvalid. -/
theorem start_requires_valid_root_witness :
    (regW1.rootValid 0 = true ∧ dW.rootId = 0 ∧ dW.state = .running ∧
        dW.token ∈ regW2.depSet 0) ∧
    DependentResource.start Registry.empty 0 = .error .RootAlreadyInvalid :=
  ⟨(start_requires_valid_root regW1 0).1 dW regW2 rfl,
   (start_requires_valid_root Registry.empty 0).2 rfl⟩

/-- C6: the first unregister_dependent with a live token succeeds and
removes exactly that dependent from the set of its root, leaving every
other dependent set untouched and shrinking the set of the root by one;
a second call with the same token fails with AlreadyUnregistered. -/
theorem unregister_dependent_twice (reg : Registry) (t r : Nat)
    (h1 : reg.tokens t = some r) (h2 : (reg.depSet r).Nodup)
    (h3 : t ∈ reg.depSet r) :
    ∃ reg2, unregister_dependent reg t = .ok reg2 ∧
      reg2.depSet r = (reg.depSet r).filter (fun x => x != t) ∧
      t ∉ reg2.depSet r ∧
      (reg2.depSet r).length + 1 = (reg.depSet r).length ∧
      (∀ r2, r2 ≠ r → reg2.depSet r2 = reg.depSet r2) ∧
      unregister_dependent reg2 t = .error .AlreadyUnregistered := by
  cases hr : reg.roots r with
  | none => simp [Registry.depSet, hr] at h3
  | some e =>
      have hdep : reg.depSet r = e.dependents := by
        simp [Registry.depSet, hr]
      refine ⟨{ roots := updateFn reg.roots r
                  (some ⟨e.valid, e.dependents.filter (fun x => x != t)⟩),
                tokens := updateFn reg.tokens t none,
                nextToken := reg.nextToken },
              by simp [unregister_dependent, h1, hr], ?_, ?_, ?_, ?_, ?_⟩
      · simp [Registry.depSet, updateFn_same, hr]
      · simp [Registry.depSet, updateFn_same, List.mem_filter]
      · simp only [Registry.depSet, updateFn_same, hr]
        rw [hdep] at h2 h3
        exact length_filter_ne_of_nodup e.dependents t h2 h3
      · intro r2 hne
        simp [Registry.depSet, updateFn_other _ _ _ _ hne]
      · simp [unregister_dependent, updateFn_same]

/-- C6 witness: on the concrete registry where token 0 is registered on
root 0, the first unregistration succeeds and the second fails with
AlreadyUnregistered. -/
theorem unregister_dependent_twice_witness :
    ∃ reg2, unregister_dependent regW2 0 = .ok reg2 ∧
      reg2.depSet 0 = (regW2.depSet 0).filter (fun x => x != 0) ∧
      0 ∉ reg2.depSet 0 ∧
      (reg2.depSet 0).length + 1 = (regW2.depSet 0).length ∧
      (∀ r2, r2 ≠ 0 → reg2.depSet r2 = regW2.depSet r2) ∧
      unregister_dependent reg2 0 = .error .AlreadyUnregistered :=
  unregister_dependent_twice regW2 0 0 rfl (by decide) (by decide)

/-- The teardown-order property of a controller: its shutdown trace ends
with the single invalidation of its root, preceded by a stop action for
every stored DependentResource and a destroy action for every stored
Window, with no invalidation anywhere in that prefix. -/
def retiresBeforeRoot (c : Controller) : Prop :=
  ∃ pre, (c.shutdown).2 = pre ++ [Action.invalidateRoot c.rootId] ∧
    (∀ d ∈ c.deps, Action.stopDep d.token ∈ pre) ∧
    (∀ w ∈ c.windows, Action.destroyWin w.token ∈ pre) ∧
    (∀ r, Action.invalidateRoot r ∉ pre)

/-- C3: on the Running to ShuttingDown transition the controller stops
every DependentResource and destroys every Window before it invokes
invalidate_root on the display root, and this ordering holds for every
permutation of the stored resource lists, so it never depends on
declaration or field order. -/
theorem dependents_retired_before_root (c : Controller)
    (h : c.ctrlState = .Running) :
    retiresBeforeRoot c ∧
    ∀ c2 : Controller, c2.ctrlState = .Running →
      c2.deps.Perm c.deps → c2.windows.Perm c.windows →
      retiresBeforeRoot c2 := by
  have main : ∀ c3 : Controller, c3.ctrlState = .Running →
      retiresBeforeRoot c3 := by
    intro c3 h3
    refine ⟨c3.deps.map (fun d => Action.stopDep d.token)
        ++ c3.windows.map (fun w => Action.destroyWin w.token),
        ?_, ?_, ?_, ?_⟩
    · simp only [Controller.shutdown, h3]
      split <;> simp
    · intro d hd
      exact List.mem_append_left _ (List.mem_map_of_mem _ hd)
    · intro w hw
      exact List.mem_append_right _ (List.mem_map_of_mem _ hw)
    · intro r hr
      rcases List.mem_append.mp hr with hm | hm <;>
        · rcases List.mem_map.mp hm with ⟨x, _, hx⟩
          cases hx
  exact ⟨main c h, fun c2 h2 _ _ => main c2 h2⟩

/-- C3 witness data: a window token registered on root 0 after the
dependent resource. -/
def winRegW : Nat × Registry :=
  match register_dependent regW2 0 with
  | .ok p => p
  | .error _ => (0, regW2)

/-- The witness window. -/
def wW : WindowRes := ⟨0, winRegW.1⟩

/-- The witness registry with both the dependent and the window
registered. -/
def regW3 : Registry := winRegW.2

/-- The witness controller: running, holding one dependent resource and
one window on root 0. -/
def cW : Controller := ⟨.Running, 0, [dW], [wW], regW3⟩

/-- C3 witness: the concrete running controller retires its dependent
and its window before invalidating its root. -/
theorem dependents_retired_before_root_witness : retiresBeforeRoot cW :=
  (dependents_retired_before_root cW rfl).1

theorem unregisterOrKeep_nextToken (reg : Registry) (t : Nat) :
    (unregisterOrKeep reg t).nextToken = reg.nextToken := by
  cases ht : reg.tokens t with
  | none => simp [unregisterOrKeep, unregister_dependent, ht]
  | some r0 =>
      cases hr : reg.roots r0 <;>
        simp [unregisterOrKeep, unregister_dependent, ht, hr]

theorem unregisterOrKeep_rootValid (reg : Registry) (t x : Nat) :
    (unregisterOrKeep reg t).rootValid x = reg.rootValid x := by
  cases ht : reg.tokens t with
  | none => simp [unregisterOrKeep, unregister_dependent, ht]
  | some r0 =>
      cases hr : reg.roots r0 with
      | none =>
          simp [unregisterOrKeep, unregister_dependent, ht, hr,
            Registry.rootValid]
      | some e =>
          by_cases hx : x = r0
          · subst hx
            simp [unregisterOrKeep, unregister_dependent, ht, hr,
              Registry.rootValid, updateFn_same]
          · simp [unregisterOrKeep, unregister_dependent, ht, hr,
              Registry.rootValid, updateFn_other _ _ _ _ hx]

theorem unregisterOrKeep_mem (reg : Registry) (t x u : Nat) (hu : u ≠ t)
    (h : u ∈ reg.depSet x) : u ∈ (unregisterOrKeep reg t).depSet x := by
  cases ht : reg.tokens t with
  | none => simpa [unregisterOrKeep, unregister_dependent, ht] using h
  | some r0 =>
      cases hr : reg.roots r0 with
      | none =>
          simpa [unregisterOrKeep, unregister_dependent, ht, hr,
            Registry.depSet] using h
      | some e =>
          by_cases hx : x = r0
          · subst hx
            have hmem : u ∈ e.dependents := by
              simpa [Registry.depSet, hr] using h
            simp [unregisterOrKeep, unregister_dependent, ht, hr,
              Registry.depSet, updateFn_same, List.mem_filter, hmem, hu]
          · simpa [unregisterOrKeep, unregister_dependent, ht, hr,
              Registry.depSet, updateFn_other _ _ _ _ hx] using h

theorem unregisterOrKeep_nil (reg : Registry) (t x : Nat)
    (h : reg.depSet x = []) : (unregisterOrKeep reg t).depSet x = [] := by
  cases ht : reg.tokens t with
  | none => simpa [unregisterOrKeep, unregister_dependent, ht] using h
  | some r0 =>
      cases hr : reg.roots r0 with
      | none =>
          simpa [unregisterOrKeep, unregister_dependent, ht, hr,
            Registry.depSet] using h
      | some e =>
          by_cases hx : x = r0
          · subst hx
            have hdeps : e.dependents = [] := by
              simpa [Registry.depSet, hr] using h
            simp [unregisterOrKeep, unregister_dependent, ht, hr,
              Registry.depSet, updateFn_same, hdeps]
          · simpa [unregisterOrKeep, unregister_dependent, ht, hr,
              Registry.depSet, updateFn_other _ _ _ _ hx] using h

/-- The inductive invariant of the core: every running resource holds a
token that is registered in the dependent set of its root, invalidated
or unknown roots have empty dependent sets, every issued resource token
is below the fresh-token counter, and resource tokens are pairwise
distinct. -/
def Inv (s : System) : Prop :=
  (∀ d ∈ s.resources, d.state = DepState.running →
      d.token ∈ s.registry.depSet d.rootId) ∧
  (∀ r, s.registry.rootValid r = false → s.registry.depSet r = []) ∧
  (∀ d ∈ s.resources, d.token < s.registry.nextToken) ∧
  (s.resources.map (fun d => d.token)).Nodup

theorem Inv_init : Inv ⟨Registry.empty, []⟩ := by
  refine ⟨by simp, ?_, by simp, by simp⟩
  intro r _
  simp [Registry.depSet, Registry.empty]

theorem Inv_preserved (s s2 : System) (hs : Inv s) (st : SysStep s s2) :
    Inv s2 := by
  obtain ⟨h1, h2, h4, h5⟩ := hs
  cases st with
  | registerRoot r reg2 h =>
      cases hr : s.registry.roots r with
      | some e => simp [register_root, hr] at h
      | none =>
          simp only [register_root, hr] at h
          cases h
          refine ⟨?_, ?_, h4, h5⟩
          · intro d hd hrun
            have hold := h1 d hd hrun
            by_cases hx : d.rootId = r
            · rw [hx] at hold
              simp [Registry.depSet, hr] at hold
            · simpa [Registry.depSet, updateFn_other _ _ _ _ hx] using hold
          · intro x hv
            by_cases hx : x = r
            · subst hx
              simp [Registry.rootValid, updateFn_same] at hv
            · have := h2 x (by
                simpa [Registry.rootValid,
                  updateFn_other _ _ _ _ hx] using hv)
              simpa [Registry.depSet, updateFn_other _ _ _ _ hx] using this
  | startRes r d reg2 h =>
      cases hr : s.registry.roots r with
      | none => simp [DependentResource.start, register_dependent, hr] at h
      | some e =>
          by_cases hv : e.valid
          · simp only [DependentResource.start, register_dependent, hr, hv,
              if_true] at h
            cases h
            refine ⟨?_, ?_, ?_, ?_⟩
            · intro d2 hd2 hrun
              cases List.mem_cons.mp hd2 with
              | inl hhead =>
                  subst hhead
                  simp [Registry.depSet, updateFn_same]
              | inr htail =>
                  have hold := h1 d2 htail hrun
                  by_cases hx : d2.rootId = r
                  · rw [hx] at hold ⊢
                    have : d2.token ∈ e.dependents := by
                      simpa [Registry.depSet, hr] using hold
                    simp [Registry.depSet, updateFn_same, this]
                  · simpa [Registry.depSet,
                      updateFn_other _ _ _ _ hx] using hold
            · intro x hvx
              by_cases hx : x = r
              · subst hx
                simp [Registry.rootValid, updateFn_same] at hvx
              · have := h2 x (by
                  simpa [Registry.rootValid,
                    updateFn_other _ _ _ _ hx] using hvx)
                simpa [Registry.depSet, updateFn_other _ _ _ _ hx] using this
            · intro d2 hd2
              cases List.mem_cons.mp hd2 with
              | inl hhead => subst hhead; simp
              | inr htail =>
                  have := h4 d2 htail
                  simp only []
                  omega
            · simp only [List.map_cons]
              refine List.nodup_cons.mpr ⟨?_, h5⟩
              intro hmem
              rcases List.mem_map.mp hmem with ⟨d2, hd2, htok⟩
              have := h4 d2 hd2
              omega
          · simp [DependentResource.start, register_dependent, hr, hv] at h
  | stopRes pre post d h =>
      have hnodup : ((pre ++ d :: post).map
          (fun d => d.token)).Nodup := by
        rw [← h]; exact h5
      have hd_notin :
          d.token ∉ pre.map (fun d => d.token) ∧
          d.token ∉ post.map (fun d => d.token) := by
        have hmid : (d.token :: (pre.map (fun d => d.token) ++
            post.map (fun d => d.token))).Nodup := by
          rw [← List.nodup_middle]
          simpa using hnodup
        have hnotin := (List.nodup_cons.mp hmid).1
        exact ⟨fun hc => hnotin (List.mem_append_left _ hc),
               fun hc => hnotin (List.mem_append_right _ hc)⟩
      refine ⟨?_, ?_, ?_, ?_⟩
      · intro d2 hd2 hrun
        simp only [DependentResource.stop]
        have hd2m : d2 ∈ pre ∨ d2 = { d with state := DepState.stopped } ∨
            d2 ∈ post := by
          rcases List.mem_append.mp hd2 with hm | hm
          · exact Or.inl hm
          · rcases List.mem_cons.mp hm with hm2 | hm2
            · exact Or.inr (Or.inl hm2)
            · exact Or.inr (Or.inr hm2)
        rcases hd2m with hm | hm | hm
        · have hne : d2.token ≠ d.token := by
            intro hc
            exact hd_notin.1 (hc ▸ List.mem_map_of_mem _ hm)
          exact unregisterOrKeep_mem _ _ _ _ hne
            (h1 d2 (h ▸ List.mem_append_left _ hm) hrun)
        · rw [hm] at hrun
          simp at hrun
        · have hne : d2.token ≠ d.token := by
            intro hc
            exact hd_notin.2 (hc ▸ List.mem_map_of_mem _ hm)
          exact unregisterOrKeep_mem _ _ _ _ hne
            (h1 d2 (h ▸ List.mem_append_right _
              (List.mem_cons_of_mem _ hm)) hrun)
      · intro x hvx
        simp only [DependentResource.stop] at hvx ⊢
        exact unregisterOrKeep_nil _ _ _
          (h2 x (by rw [← unregisterOrKeep_rootValid s.registry d.token x]
                    exact hvx))
      · intro d2 hd2
        simp only [DependentResource.stop, unregisterOrKeep_nextToken]
        have hd2m : d2 ∈ pre ∨ d2 = { d with state := DepState.stopped } ∨
            d2 ∈ post := by
          rcases List.mem_append.mp hd2 with hm | hm
          · exact Or.inl hm
          · rcases List.mem_cons.mp hm with hm2 | hm2
            · exact Or.inr (Or.inl hm2)
            · exact Or.inr (Or.inr hm2)
        rcases hd2m with hm | hm | hm
        · exact h4 d2 (h ▸ List.mem_append_left _ hm)
        · rw [hm]
          exact h4 d (h ▸ List.mem_append_right _ (List.mem_cons_self _ _))
        · exact h4 d2 (h ▸ List.mem_append_right _
            (List.mem_cons_of_mem _ hm))
      · have : (pre ++ (DependentResource.stop s.registry d).1 :: post).map
            (fun d => d.token) =
            (pre ++ d :: post).map (fun d => d.token) := by
          simp [DependentResource.stop]
        rw [this]
        exact hnodup
  | invalidateRoot r reg2 h =>
      cases hr : s.registry.roots r with
      | none => simp [invalidate_root, hr] at h
      | some e =>
          by_cases hv : e.valid
          · by_cases hd : e.dependents = []
            · simp only [invalidate_root, hr, hv, if_true, hd,
                List.isEmpty_nil] at h
              cases h
              refine ⟨?_, ?_, h4, h5⟩
              · intro d2 hd2 hrun
                have hold := h1 d2 hd2 hrun
                by_cases hx : d2.rootId = r
                · rw [hx] at hold
                  rw [show s.registry.depSet r = [] by
                    simp [Registry.depSet, hr, hd]] at hold
                  cases hold
                · simpa [Registry.depSet,
                    updateFn_other _ _ _ _ hx] using hold
              · intro x hvx
                by_cases hx : x = r
                · subst hx
                  simp [Registry.depSet, updateFn_same]
                · have := h2 x (by
                    simpa [Registry.rootValid,
                      updateFn_other _ _ _ _ hx] using hvx)
                  simpa [Registry.depSet,
                    updateFn_other _ _ _ _ hx] using this
            · simp [invalidate_root, hr, hv,
                List.isEmpty_iff, hd] at h
          · simp [invalidate_root, hr, hv] at h

theorem Inv_reachable (s : System) (h : Reachable s) : Inv s := by
  induction h with
  | init => exact Inv_init
  | step s s2 _ hstep ih => exact Inv_preserved s s2 ih hstep

/-- C5: in every reachable state of the core, every DependentResource
whose state is running references a root whose validity flag is true;
the invariant is maintained by the operations themselves. -/
theorem running_resource_has_valid_root (s : System) (hs : Reachable s)
    (d : DependentResource) (hd : d ∈ s.resources)
    (hr : d.state = .running) :
    s.registry.rootValid d.rootId = true := by
  obtain ⟨h1, h2, _, _⟩ := Inv_reachable s hs
  have hmem := h1 d hd hr
  cases hv : s.registry.rootValid d.rootId with
  | true => rfl
  | false =>
      rw [h2 d.rootId hv] at hmem
      cases hmem

/-- C5 witness: the concrete state reached by registering root 0 and
starting the witness dependent on it is covered by the theorem: the
resource runs and its root is valid. -/
theorem running_resource_has_valid_root_witness :
    (System.mk regW2 [dW]).registry.rootValid dW.rootId = true :=
  running_resource_has_valid_root ⟨regW2, [dW]⟩
    (Reachable.step _ _
      (Reachable.step _ _ Reachable.init
        (SysStep.registerRoot ⟨Registry.empty, []⟩ 0 regW1 rfl))
      (SysStep.startRes ⟨regW1, []⟩ 0 dW regW2 rfl))
    dW (List.mem_singleton.mpr rfl) rfl

end Core
